/-
Verification of the amqp-tools repository (amqp-consume / amqp-publish):
a shallow embedding of the content codec, the streaming ingestion decoder,
the specification parser and the two session state machines, with theorems
settling the specification's claims about them.

Numbers inside JSON values are modelled as integers: none of the verified
properties depend on the fractional/exponent part of the JSON number
grammar, and floating point is outside the scope of the embedding.
-/
import Mathlib

namespace AmqpTools

/-- JSON values as produced by `JSON.parse` / consumed by `JSON.stringify`
(numbers restricted to integers, see header note). -/
inductive JSON where
  | null : JSON
  | bool (b : Bool) : JSON
  | num (n : Int) : JSON
  | str (s : String) : JSON
  | arr (elems : List JSON) : JSON
  | obj (fields : List (String × JSON)) : JSON

/-- JSON whitespace characters. -/
def isJsonWs (c : Char) : Bool :=
  c = ' ' || c = '\t' || c = '\n' || c = '\r'

/-- Skip JSON whitespace. -/
def skipWs (cs : List Char) : List Char :=
  cs.dropWhile isJsonWs

def isDigitChar (c : Char) : Bool :=
  '0' ≤ c && c ≤ '9'

def digitVal (c : Char) : Nat := c.toNat - '0'.toNat

def hexVal (c : Char) : Option Nat :=
  if '0' ≤ c ∧ c ≤ '9' then some (c.toNat - '0'.toNat)
  else if 'a' ≤ c ∧ c ≤ 'f' then some (c.toNat - 'a'.toNat + 10)
  else if 'A' ≤ c ∧ c ≤ 'F' then some (c.toNat - 'A'.toNat + 10)
  else none

/-- Parse a run of decimal digits (at least one). -/
def parseDigits : List Char → Option (Nat × List Char)
  | c :: rest =>
    if isDigitChar c then
      let rec go (acc : Nat) : List Char → Nat × List Char
        | [] => (acc, [])
        | d :: ds => if isDigitChar d then go (acc * 10 + digitVal d) ds else (acc, d :: ds)
      some (go (digitVal c) rest)
  else none
  | [] => none

/-- Parse the body of a JSON string literal after the opening quote. -/
def parseStringBody : Nat → List Char → Option (List Char × List Char)
  | 0, _ => none
  | _ + 1, [] => none
  | fuel + 1, c :: rest =>
    if c = '"' then some ([], rest)
    else if c = '\\' then
      match rest with
      | [] => none
      | e :: rest' =>
        let esc : Option (Char × List Char) :=
          if e = '"' then some ('"', rest')
          else if e = '\\' then some ('\\', rest')
          else if e = '/' then some ('/', rest')
          else if e = 'n' then some ('\n', rest')
          else if e = 't' then some ('\t', rest')
          else if e = 'r' then some ('\r', rest')
          else if e = 'b' then some (Char.ofNat 8, rest')
          else if e = 'f' then some (Char.ofNat 12, rest')
          else if e = 'u' then
            match rest' with
            | h1 :: h2 :: h3 :: h4 :: rest'' =>
              match hexVal h1, hexVal h2, hexVal h3, hexVal h4 with
              | some v1, some v2, some v3, some v4 =>
                some (Char.ofNat (((v1 * 16 + v2) * 16 + v3) * 16 + v4), rest'')
              | _, _, _, _ => none
            | _ => none
          else none
        match esc with
        | some (ch, rest'') =>
          match parseStringBody fuel rest'' with
          | some (body, rem) => some (ch :: body, rem)
          | none => none
        | none => none
    else
      match parseStringBody fuel rest with
      | some (body, rem) => some (c :: body, rem)
      | none => none

mutual
/-- Fuel-bounded recursive-descent JSON value parser. -/
def parseValue : Nat → List Char → Option (JSON × List Char)
  | 0, _ => none
  | fuel + 1, cs =>
    match skipWs cs with
    | [] => none
    | c :: rest =>
      if c = 'n' then
        match rest with
        | 'u' :: 'l' :: 'l' :: rem => some (.null, rem)
        | _ => none
      else if c = 't' then
        match rest with
        | 'r' :: 'u' :: 'e' :: rem => some (.bool true, rem)
        | _ => none
      else if c = 'f' then
        match rest with
        | 'a' :: 'l' :: 's' :: 'e' :: rem => some (.bool false, rem)
        | _ => none
      else if c = '"' then
        match parseStringBody (fuel + 1) rest with
        | some (body, rem) => some (.str (String.mk body), rem)
        | none => none
      else if c = '-' then
        match parseDigits rest with
        | some (n, rem) => some (.num (-(n : Int)), rem)
        | none => none
      else if isDigitChar c then
        match parseDigits (c :: rest) with
        | some (n, rem) => some (.num (n : Int), rem)
        | none => none
      else if c = '[' then
        match skipWs rest with
        | ']' :: rem => some (.arr [], rem)
        | rest' => parseArrayItems fuel rest' []
      else if c = '{' then
        match skipWs rest with
        | '}' :: rem => some (.obj [], rem)
        | rest' => parseObjectItems fuel rest' []
      else none

/-- Parse the items of a JSON array after `[`; `acc` holds items in reverse. -/
def parseArrayItems : Nat → List Char → List JSON → Option (JSON × List Char)
  | 0, _, _ => none
  | fuel + 1, cs, acc =>
    match parseValue fuel cs with
    | none => none
    | some (v, rem) =>
      match skipWs rem with
      | ',' :: rem' => parseArrayItems fuel rem' (v :: acc)
      | ']' :: rem' => some (.arr (acc.reverse ++ [v]), rem')
      | _ => none

/-- Parse the members of a JSON object after `{`; `acc` holds members in reverse. -/
def parseObjectItems : Nat → List Char → List (String × JSON) → Option (JSON × List Char)
  | 0, _, _ => none
  | fuel + 1, cs, acc =>
    match skipWs cs with
    | '"' :: rest =>
      match parseStringBody (fuel + 1) rest with
      | none => none
      | some (key, rem) =>
        match skipWs rem with
        | ':' :: rem' =>
          match parseValue fuel rem' with
          | none => none
          | some (v, rem'') =>
            match skipWs rem'' with
            | ',' :: rem3 => parseObjectItems fuel rem3 ((String.mk key, v) :: acc)
            | '}' :: rem3 => some (.obj (acc.reverse ++ [(String.mk key, v)]), rem3)
            | _ => none
        | _ => none
    | _ => none
end

/-- Model of `JSON.parse`: parse a whole string as one JSON value,
`none` when the source throws a `SyntaxError`. -/
def jsonParse (s : String) : Option JSON :=
  match parseValue (s.length + 1) s.data with
  | some (v, rem) => if (skipWs rem).isEmpty then some v else none
  | none => none

/-! ## Content codec (`convertContent` / `createJSON` from src/consume.js) -/

/-- The message `properties` fields the codec reads or mutates. -/
structure Props where
  contentType : Option String
  contentEncoding : Option String
  deriving DecidableEq, Repr

/-- `cEnc.toLowerCase().replace(/[^a-z0-9]/g, '')`: lower-case, then strip
every character that is not a lower-case letter or digit. -/
def normalizeEnc (s : String) : String :=
  String.mk ((s.data.map Char.toLower).filter fun c =>
    ('a' ≤ c && c ≤ 'z') || ('0' ≤ c && c ≤ '9'))

/-- `buff.toString('ascii')`: each byte masked to 7 bits. -/
def asciiDecode (buff : List Nat) : String :=
  String.mk (buff.map fun b => Char.ofNat (b % 128))

def base64Alphabet : List Char :=
  "ABCDEFGHIJKLMNOPQRSTUVWXYZabcdefghijklmnopqrstuvwxyz0123456789+/".data

def base64Char (n : Nat) : Char := base64Alphabet.getD n 'A'

/-- `buff.toString('base64')` (standard alphabet, `=` padding). -/
def base64Encode : List Nat → List Char
  | b0 :: b1 :: b2 :: rest =>
    base64Char (b0 % 256 / 4) :: base64Char (b0 % 4 * 16 + b1 % 256 / 16) ::
      base64Char (b1 % 16 * 4 + b2 % 256 / 64) :: base64Char (b2 % 64) :: base64Encode rest
  | [b0, b1] =>
    [base64Char (b0 % 256 / 4), base64Char (b0 % 4 * 16 + b1 % 256 / 16),
      base64Char (b1 % 16 * 4), '=']
  | [b0] => [base64Char (b0 % 256 / 4), base64Char (b0 % 4 * 16), '=', '=']
  | [] => []

def replacementChar : Char := Char.ofNat 0xFFFD

/-- `buff.toString('utf8')` / `buff.toString()`: total UTF-8 decoding with
U+FFFD for malformed sequences. -/
def utf8Decode : List Nat → List Char
  | [] => []
  | b :: rest =>
    if b % 256 < 0x80 then Char.ofNat (b % 256) :: utf8Decode rest
    else if 0xC2 ≤ b % 256 ∧ b % 256 ≤ 0xDF then
      match rest with
      | b1 :: rest' =>
        if 0x80 ≤ b1 % 256 ∧ b1 % 256 ≤ 0xBF then
          Char.ofNat ((b % 256 - 0xC0) * 64 + (b1 % 256 - 0x80)) :: utf8Decode rest'
        else replacementChar :: utf8Decode (b1 :: rest')
      | [] => [replacementChar]
    else if 0xE0 ≤ b % 256 ∧ b % 256 ≤ 0xEF then
      match rest with
      | b1 :: b2 :: rest' =>
        if (0x80 ≤ b1 % 256 ∧ b1 % 256 ≤ 0xBF) ∧ (0x80 ≤ b2 % 256 ∧ b2 % 256 ≤ 0xBF) then
          Char.ofNat ((b % 256 - 0xE0) * 4096 + (b1 % 256 - 0x80) * 64 + (b2 % 256 - 0x80)) ::
            utf8Decode rest'
        else replacementChar :: utf8Decode (b1 :: b2 :: rest')
      | _ => [replacementChar]
    else if 0xF0 ≤ b % 256 ∧ b % 256 ≤ 0xF4 then
      match rest with
      | b1 :: b2 :: b3 :: rest' =>
        if (0x80 ≤ b1 % 256 ∧ b1 % 256 ≤ 0xBF) ∧ (0x80 ≤ b2 % 256 ∧ b2 % 256 ≤ 0xBF) ∧
            (0x80 ≤ b3 % 256 ∧ b3 % 256 ≤ 0xBF) then
          Char.ofNat ((b % 256 - 0xF0) * 262144 + (b1 % 256 - 0x80) * 4096 +
            (b2 % 256 - 0x80) * 64 + (b3 % 256 - 0x80)) :: utf8Decode rest'
        else replacementChar :: utf8Decode (b1 :: b2 :: b3 :: rest')
      | _ => [replacementChar]
    else replacementChar :: utf8Decode rest

/-- `buff.toString('utf16le')` / `buff.toString('ucs2')`: little-endian
16-bit code units, surrogate pairs combined, a trailing odd byte dropped. -/
def utf16leDecode : List Nat → List Char
  | b0 :: b1 :: rest =>
    let u := b0 % 256 + b1 % 256 * 256
    if 0xD800 ≤ u ∧ u ≤ 0xDBFF then
      match rest with
      | c0 :: c1 :: rest' =>
        let v := c0 % 256 + c1 % 256 * 256
        if 0xDC00 ≤ v ∧ v ≤ 0xDFFF then
          Char.ofNat (0x10000 + (u - 0xD800) * 1024 + (v - 0xDC00)) :: utf16leDecode rest'
        else replacementChar :: utf16leDecode (c0 :: c1 :: rest')
      | _ => [replacementChar]
    else if 0xDC00 ≤ u ∧ u ≤ 0xDFFF then replacementChar :: utf16leDecode rest
    else Char.ofNat u :: utf16leDecode rest
  | _ => []

/-- `pre` is a prefix of `s` (JS `/^pre/.test(s)` for a literal pattern). -/
def strStartsWith (s pre : String) : Bool :=
  pre.data.isPrefixOf s.data

/-- Whether `/^application\/json/.test(props.contentType)` holds (a missing
`contentType` coerces to the string `"undefined"`, which never matches). -/
def isJsonContentTypePrefix (ct : Option String) : Bool :=
  match ct with
  | some t => strStartsWith t "application/json"
  | none => false

/-- `convertContent(buff, props)` from src/consume.js: convert the binary body
to a string according to the normalized `contentEncoding`, overwriting
`props.contentEncoding` in place with the encoding actually used; modelled as
returning the string together with the updated properties. -/
def convertContent (buff : List Nat) (props : Props) : String × Props :=
  let cEnc := normalizeEnc (props.contentEncoding.getD "")
  if cEnc = "" ∧ isJsonContentTypePrefix props.contentType then
    (String.mk (utf8Decode buff), { props with contentEncoding := some "utf8" })
  else if cEnc = "hex" then
    (asciiDecode buff, { props with contentEncoding := some "hex" })
  else if cEnc = "ascii" then
    (asciiDecode buff, { props with contentEncoding := some "ascii" })
  else if cEnc = "utf8" then
    (String.mk (utf8Decode buff), { props with contentEncoding := some "utf8" })
  else if cEnc = "utf16le" ∨ cEnc = "ucs2" then
    (String.mk (utf16leDecode buff), { props with contentEncoding := some "utf8" })
  else if cEnc = "binary" then
    (String.mk (base64Encode buff), { props with contentEncoding := some "base64" })
  else if cEnc = "base64" then
    (asciiDecode buff, { props with contentEncoding := some "base64" })
  else
    let tag := if cEnc = "" then "base64" else "base64," ++ cEnc
    (String.mk (base64Encode buff), { props with contentEncoding := some tag })

/-- An inbound broker message, restricted to the fields `createJSON` reads. -/
structure Msg where
  content : List Nat
  properties : Props
  deriving DecidableEq, Repr

/-- Output object of `createJSON` (the `assign(base, omit(msg, 'content'))`
carries `date`/`queue` and the broker fields through unchanged). -/
structure OutMsg where
  date : String
  queue : String
  content : JSON
  properties : Props

/-- Whether `/^text\//.test(cType)` holds (case-sensitive prefix). -/
def isTextContentType (ct : Option String) : Bool :=
  match ct with
  | some t => strStartsWith t "text/"
  | none => false

/-- `createJSON(base, msg)` from src/consume.js: convert the body via
`convertContent`, then parse it as JSON exactly when `contentType` matches
`/^application\/json$/` (falling back to the raw string when the parse
throws), keep it as a string for `text/*`, and otherwise keep the string and
default a missing `contentType` to `application/octet-stream`. -/
def createJSON (date queue : String) (msg : Msg) : OutMsg :=
  let res := convertContent msg.content msg.properties
  let sContent := res.1
  let props := res.2
  let cType := msg.properties.contentType
  if cType = some "application/json" then
    { date, queue, properties := props,
      content := match jsonParse sContent with
        | some v => v
        | none => .str sContent }
  else if isTextContentType cType then
    { date, queue, properties := props, content := .str sContent }
  else
    { date, queue,
      properties :=
        if props.contentType = none then
          { props with contentType := some "application/octet-stream" }
        else props,
      content := .str sContent }

/-! ## Specification parser (src/parseSpecs.js) -/

structure Binding where
  exchange : String
  routingKey : String
  deriving DecidableEq, Repr

structure Specs where
  queues : List String
  bindings : List Binding
  deriving DecidableEq, Repr

/-- Split a token's characters on `'/'` (no separator collapsing); the
result is always non-empty. -/
def splitSlash : List Char → List (List Char)
  | [] => [[]]
  | c :: rest =>
    let r := splitSlash rest
    if c = '/' then [] :: r
    else (c :: r.headI) :: r.tail

/-- `RX.Binding = /^([^\/]+)((?:\/[^\/]+)+)$/` matches a token exactly when
it splits on `'/'` into at least two segments that are all non-empty. -/
def isBindingToken (t : String) : Bool :=
  let parts := splitSlash t.data
  decide (2 ≤ parts.length) && parts.all fun p => !p.isEmpty

/-- The bindings a matching token contributes: `match[2].match(RX.Route)`
recovers every `/`-segment after the first, each becoming one binding that
shares the first segment as exchange. -/
def tokenBindings (t : String) : List Binding :=
  let parts := splitSlash t.data
  parts.tail.map fun r => { exchange := String.mk parts.headI, routingKey := String.mk r }

/-- `parseSpecifications(specs)`: each token either matches `RX.Binding` and
contributes one binding per route segment, or is kept whole as a queue
name; the loop never fails. -/
def parseSpecifications : List String → Specs
  | [] => { queues := [], bindings := [] }
  | spec :: rest =>
    let acc := parseSpecifications rest
    if isBindingToken spec then
      { acc with bindings := tokenBindings spec ++ acc.bindings }
    else
      { acc with queues := spec :: acc.queues }

/-- Whether the character list contains two consecutive slashes. -/
def hasDoubleSlash : List Char → Bool
  | c1 :: c2 :: rest => (c1 = '/' && c2 = '/') || hasDoubleSlash (c2 :: rest)
  | _ => false

instance {ε α : Type} [DecidableEq ε] [DecidableEq α] : DecidableEq (Except ε α) := fun a b =>
  match a, b with
  | .ok x, .ok y =>
    if h : x = y then .isTrue (by rw [h]) else .isFalse (by intro hh; cases hh; exact h rfl)
  | .ok _, .error _ => .isFalse (by intro h; cases h)
  | .error _, .ok _ => .isFalse (by intro h; cases h)
  | .error x, .error y =>
    if h : x = y then .isTrue (by rw [h]) else .isFalse (by intro hh; cases hh; exact h rfl)

/-! ## Consume session state machine (src/consume.js) -/

/-- The configured `--max`: `some m` for a finite maximum, `none` for the
default `Infinity`. -/
abbrev MaxOpt := Option Nat

/-- `counter < opts.max` (everything is below `Infinity`). -/
def ltMax (counter : Nat) (max : MaxOpt) : Bool :=
  match max with
  | some m => counter < m
  | none => true

/-- The mutable consume-session state touched by `gotMessage`:
`counter` is the running delivery counter, `emittedCount` the number of
messages decoded (`createJSON`) and written to stdout, `drainScheduled`
whether `setImmediate(shutdown)` has been issued, `acked` the number of
per-message `consumer.ack` calls. -/
structure ConsumeState where
  counter : Nat
  emittedCount : Nat
  drainScheduled : Bool
  acked : Nat
  deriving DecidableEq, Repr

def initConsume : ConsumeState :=
  { counter := 0, emittedCount := 0, drainScheduled := false, acked := 0 }

/-- One invocation of `gotMessage(qName, msg)`: emit (decode via `createJSON`
and write) only while `counter < opts.max`; increment `counter`
unconditionally; when the incremented counter equals a finite `opts.max`,
schedule the asynchronous shutdown (`setImmediate(shutdown)`) and return;
otherwise, when `opts.max === Infinity`, acknowledge the message. -/
def gotMessage (max : MaxOpt) (s : ConsumeState) : ConsumeState :=
  let s := if ltMax s.counter max then { s with emittedCount := s.emittedCount + 1 } else s
  let s := { s with counter := s.counter + 1 }
  if max = some s.counter then { s with drainScheduled := true }
  else if max = none then { s with acked := s.acked + 1 }
  else s

/-- Session state after `n` deliveries (the scheduled shutdown is deferred,
so later deliveries still run `gotMessage`). -/
def runDeliveries (max : MaxOpt) : Nat → ConsumeState
  | 0 => initConsume
  | n + 1 => gotMessage max (runDeliveries max n)

/-- The `checkQueue` result for one queue. -/
structure QueueInfo where
  messageCount : Nat
  deriving DecidableEq, Repr

/-- Whether `opts.min > opts.max` (never true against `Infinity`). -/
def minGtMax (min : Nat) (max : MaxOpt) : Bool :=
  match max with
  | some m => min > m
  | none => false

/-- `checkMinimumMessages(info)` from src/consume.js: with `--min` configured
positive, reject binding specs, a minimum above the maximum, and a summed
available `messageCount` below the minimum; otherwise pass. -/
def checkMinimumMessages (min : Nat) (max : MaxOpt) (specs : Specs)
    (info : List QueueInfo) : Except String Unit :=
  if min > 0 then
    if specs.bindings.length > 0 then
      .error "--min cannot be used for exchange bindings"
    else if minGtMax min max then
      .error "--min cannot be greather than --max"
    else
      let availMessages := (info.map QueueInfo.messageCount).sum
      if availMessages < min then
        .error ("--min=" ++ toString min ++ ", only " ++ toString availMessages)
      else .ok ()
  else .ok ()

/-- The consume startup pipeline after `checkAllQueues` returned `info` (one
entry per static queue): run `checkMinimumMessages`, then — only on success —
`createDynamicBindings` (which appends the broker-generated queue name when
binding specs exist) and `startConsuming` (one subscription per queue).
An error aborts before any subscription exists and before any message is
emitted. -/
def consumeStartup (min : Nat) (max : MaxOpt) (specs : Specs)
    (info : List QueueInfo) (dynQueue : String) : Except String (List String) := do
  checkMinimumMessages min max specs info
  let queues := if specs.bindings.isEmpty then specs.queues else specs.queues ++ [dynQueue]
  pure queues

/-! ## Publish: read-mode selection and stream decoding (src/publish.js) -/

inductive ReadMode where
  | batch  -- first char `[`: read everything, parse after end of input
  | stream -- first char `{`: newline-separated JSON values
  deriving DecidableEq, Repr

/-- `setReadMode(s)`: `readMode` is `s.charAt(0)` of the first data chunk;
when `readMode !== '[' && readMode !== '{'` — including a leading blank —
the fatal usage error `exit(new Error('Incorrect usage, try using --help'))`
fires. -/
def setReadMode (firstChunk : List Char) : Except String ReadMode :=
  let readMode := firstChunk.head?
  if readMode = some '[' then .ok .batch
  else if readMode = some '{' then .ok .stream
  else .error "Incorrect usage, try using --help"

/-- Blank (whitespace) characters, as used by the spec's wording
"first non-blank character". -/
def isBlankChar (c : Char) : Bool :=
  c = ' ' || c = '\t' || c = '\n' || c = '\r'

/-- The read-mode selection as the spec words it (§6): decided by the first
non-blank character of the input. Spec-side definition, for comparison with
`setReadMode`. -/
def specReadMode (input : List Char) : Except String ReadMode :=
  let c0 := (input.dropWhile isBlankChar).head?
  if c0 = some '[' then .ok .batch
  else if c0 = some '{' then .ok .stream
  else .error "usage error"

/-- `sBuffer.split(/\r\n|\n|\r/)` with the last element retained as the new
carry-over: `splitCRLF cs acc` scans `cs` with `acc` the (reversed) current
line, returning the complete lines and the trailing fragment. A `\r`
immediately followed by `\n` counts as one separator (regex alternation
prefers `\r\n`). -/
def splitCRLF : List Char → List Char → List (List Char) × List Char
  | [], acc => ([], acc.reverse)
  | '\r' :: '\n' :: rest, acc =>
    let r := splitCRLF rest []
    (acc.reverse :: r.1, r.2)
  | '\r' :: rest, acc =>
    let r := splitCRLF rest []
    (acc.reverse :: r.1, r.2)
  | '\n' :: rest, acc =>
    let r := splitCRLF rest []
    (acc.reverse :: r.1, r.2)
  | c :: rest, acc => splitCRLF rest (c :: acc)

/-- `readData(s)` in stream mode: append the chunk to `sBuffer`, split, hand
every complete line to `publish(JSON.parse(line))`, and keep the popped last
fragment as the new `sBuffer`. State = (lines handed to publish so far,
current `sBuffer`). -/
def readData (st : List (List Char) × List Char) (chunk : List Char) :
    List (List Char) × List Char :=
  let r := splitCRLF (st.2 ++ chunk) []
  (st.1 ++ r.1, r.2)

/-- Stream-mode state after feeding a sequence of chunks. -/
def runChunks (chunks : List (List Char)) : List (List Char) × List Char :=
  chunks.foldl readData ([], [])

/-- All lines handed to `publish` for a chunk sequence followed by end of
input: the streamed complete lines plus `doPublish()`'s parse of a non-empty
leftover `sBuffer`. -/
def streamLines (chunks : List (List Char)) : List (List Char) :=
  let r := runChunks chunks
  r.1 ++ (if r.2.isEmpty then [] else [r.2])

/-- The values published for a chunk sequence: each line goes through
`JSON.parse`; a parse failure throws out of the data callback (the process
dies with an uncaught `SyntaxError`), modelled as `none`. -/
def streamValues (chunks : List (List Char)) : Option (List JSON) :=
  (streamLines chunks).mapM fun l => jsonParse (String.mk l)

/-- `noSplitCRLF T chunks`: no chunk boundary of `chunks` (arriving after the
already-received text `T`) falls between the `\r` and the `\n` of a `\r\n`
pair. -/
def noSplitCRLF (T : List Char) : List (List Char) → Bool
  | [] => true
  | c :: cs =>
    !(T.getLast? == some '\r' && c.head? == some '\n') && noSplitCRLF (T ++ c) cs

/-! ## Publish session state machine (src/publish.js) -/

/-- The mutable publish-session state: `waitingForConfirm` counts values whose
route confirmations are outstanding, `waitingForData` is true until stdin
ends, `interruptsReceived` counts SIGINT/SIGTERM, `draining` records that
`checkForQuit` started closing channel and connection, `forcedQuit` records
`process.exit(1)` from the forced-quit branch, `stdinPaused` records
`process.stdin.pause()`. -/
structure PubState where
  waitingForConfirm : Nat
  waitingForData : Bool
  interruptsReceived : Nat
  draining : Bool
  forcedQuit : Bool
  stdinPaused : Bool
  deriving DecidableEq, Repr

def initPub : PubState :=
  { waitingForConfirm := 0, waitingForData := true, interruptsReceived := 0,
    draining := false, forcedQuit := false, stdinPaused := false }

/-- `checkForQuit()`: more than one interrupt forces an immediate non-zero
exit; otherwise return while input is still expected, return while any
confirmation is outstanding, and only when neither holds start draining
(close the confirm channel, then the connection). -/
def checkForQuit (s : PubState) : PubState :=
  if s.interruptsReceived > 1 then { s with forcedQuit := true }
  else if s.waitingForData then s
  else if s.waitingForConfirm ≠ 0 then s
  else { s with draining := true }

/-- `startQuitting()`: mark input as ended, then `checkForQuit()`. -/
def startQuitting (s : PubState) : PubState :=
  checkForQuit { s with waitingForData := false }

/-- `handleInterrupt()`: count the interrupt, pause stdin if not yet paused,
then `startQuitting()`. -/
def handleInterrupt (s : PubState) : PubState :=
  startQuitting { s with interruptsReceived := s.interruptsReceived + 1, stdinPaused := true }

/-- The events driving the publish session: `publishValue` is one `publish`
call incrementing `waitingForConfirm` before its routes dispatch;
`confirmValue` is the `.then` after all of one value's per-route
confirmations resolved (decrement, then `checkForQuit`); `inputEnd` is the
stdin `end` event (after `doPublish`); `interrupt` is SIGINT/SIGTERM. -/
inductive PubEvent where
  | publishValue
  | confirmValue
  | inputEnd
  | interrupt
  deriving DecidableEq, Repr

def pubStep (s : PubState) : PubEvent → PubState
  | .publishValue => { s with waitingForConfirm := s.waitingForConfirm + 1 }
  | .confirmValue => checkForQuit { s with waitingForConfirm := s.waitingForConfirm - 1 }
  | .inputEnd => startQuitting s
  | .interrupt => handleInterrupt s

def pubRun (s : PubState) : List PubEvent → PubState
  | [] => s
  | e :: es => pubRun (pubStep s e) es

/-- Trace validity: `publish` only runs from the data/end callbacks, hence
while input is still being read, and a value's confirmations only resolve
while that value's publish is outstanding. -/
def validFrom (s : PubState) : List PubEvent → Bool
  | [] => true
  | e :: es =>
    (!(e == .publishValue) || s.waitingForData) &&
    (!(e == .confirmValue) || !(s.waitingForConfirm == 0)) &&
    validFrom (pubStep s e) es

def countEv (e : PubEvent) (evs : List PubEvent) : Nat :=
  evs.count e

/-- Modelled from the spec: the correlation-identifier selection of
`amqp-publish` (the `correlationId` / `--correlation` behavior of v1.2.0
recorded in the repository changelog; the publish-side source implementing
it is not part of the provided source tree). The outgoing value's own
`properties.correlationId` wins; otherwise the configured default
correlation value is applied only if it is non-empty. -/
def effectiveCorrelationId (valueCorrelationId : Option String)
    (configuredCorrelation : String) : Option String :=
  match valueCorrelationId with
  | some c => some c
  | none => if configuredCorrelation ≠ "" then some configuredCorrelation else none

/-! ## Helper lemmas -/

theorem gotMessage_counter (max : MaxOpt) (s : ConsumeState) :
    (gotMessage max s).counter = s.counter + 1 := by
  simp only [gotMessage]
  repeat' split
  all_goals rfl

theorem gotMessage_emitted (max : MaxOpt) (s : ConsumeState) :
    (gotMessage max s).emittedCount =
      s.emittedCount + (if ltMax s.counter max then 1 else 0) := by
  simp only [gotMessage]
  repeat' split
  all_goals simp_all

theorem gotMessage_drain (m : Nat) (s : ConsumeState) :
    (gotMessage (some m) s).drainScheduled =
      (s.drainScheduled || decide (m = s.counter + 1)) := by
  simp only [gotMessage]
  repeat' split
  all_goals simp_all

theorem runDeliveries_counter (max : MaxOpt) (n : Nat) :
    (runDeliveries max n).counter = n := by
  induction n with
  | zero => rfl
  | succ n ih => simp [runDeliveries, gotMessage_counter, ih]

theorem runDeliveries_emitted (m n : Nat) :
    (runDeliveries (some m) n).emittedCount = min m n := by
  induction n with
  | zero =>
    show (0 : Nat) = min m 0
    omega
  | succ n ih =>
    simp only [runDeliveries, gotMessage_emitted, runDeliveries_counter, ih, ltMax,
      decide_eq_true_eq]
    split <;> omega

theorem runDeliveries_drain (m n : Nat) :
    (runDeliveries (some m) n).drainScheduled = true ↔ 1 ≤ m ∧ m ≤ n := by
  induction n with
  | zero =>
    show false = true ↔ 1 ≤ m ∧ m ≤ 0
    simp
    omega
  | succ n ih =>
    simp only [runDeliveries, gotMessage_drain, runDeliveries_counter, Bool.or_eq_true,
      decide_eq_true_eq, ih]
    omega

/-! ## Claim theorems -/

/-- C1: with a finite configured maximum `m`, a delivery is decoded and
emitted exactly when the running counter is strictly below `m` at delivery
time (so after `n` deliveries exactly `min m n` messages were emitted), the
counter increments unconditionally on every delivery, and the deferred
transition to draining is scheduled exactly when the counter becomes equal
to `m` (so it is scheduled iff `1 ≤ m` and at least `m` deliveries arrived;
deliveries after the `m`-th are never emitted). -/
theorem consume_finite_max_counting (m n : Nat) :
    (runDeliveries (some m) n).counter = n ∧
    (runDeliveries (some m) n).emittedCount = min m n ∧
    ((runDeliveries (some m) (n + 1)).emittedCount =
      (runDeliveries (some m) n).emittedCount +
        (if (runDeliveries (some m) n).counter < m then 1 else 0)) ∧
    ((runDeliveries (some m) n).drainScheduled = true ↔ 1 ≤ m ∧ m ≤ n) := by
  refine ⟨runDeliveries_counter _ n, runDeliveries_emitted m n, ?_, runDeliveries_drain m n⟩
  have := gotMessage_emitted (some m) (runDeliveries (some m) n)
  simpa [runDeliveries, ltMax] using this

/-- C3: the decode path is total (`convertContent` is a function into
`String × Props`, so every body and every combination of present or absent
`contentType` / `contentEncoding` yields a string without throwing), the
updated `contentEncoding` is always drawn from the enumeration
`utf8 | ascii | hex | base64 | base64,<normalized tag>`, and an
unrecognized non-empty normalized tag records `base64,<tag>` with the body
re-encoded as base64. -/
theorem convertContent_encoding_enum (buff : List Nat) (props : Props) :
    ((convertContent buff props).2.contentEncoding = some "utf8" ∨
     (convertContent buff props).2.contentEncoding = some "ascii" ∨
     (convertContent buff props).2.contentEncoding = some "hex" ∨
     (convertContent buff props).2.contentEncoding = some "base64" ∨
     (normalizeEnc (props.contentEncoding.getD "") ≠ "" ∧
      (convertContent buff props).2.contentEncoding =
        some ("base64," ++ normalizeEnc (props.contentEncoding.getD "")))) ∧
    (normalizeEnc (props.contentEncoding.getD "") ∉
        (["", "hex", "ascii", "utf8", "utf16le", "ucs2", "binary", "base64"] : List String) →
      (convertContent buff props).2.contentEncoding =
        some ("base64," ++ normalizeEnc (props.contentEncoding.getD "")) ∧
      (convertContent buff props).1 = String.mk (base64Encode buff)) := by
  constructor
  · simp only [convertContent]
    repeat' split
    all_goals simp_all
  · intro h
    simp only [List.mem_cons, List.mem_singleton, not_or] at h
    obtain ⟨h0, h1, h2, h3, h4, h5, h6, h7⟩ := h
    simp only [convertContent]
    repeat' split
    all_goals simp_all

theorem convertContent_encoding_enum_witness :
    (convertContent [104, 105] ⟨none, some "foo"⟩).2.contentEncoding =
      some ("base64," ++ normalizeEnc ((some "foo" : Option String).getD "")) ∧
    (convertContent [104, 105] ⟨none, some "foo"⟩).1 =
      String.mk (base64Encode [104, 105]) :=
  (convertContent_encoding_enum [104, 105] ⟨none, some "foo"⟩).2 (by decide)

/-- C5: with `--min` configured positive, consume startup aborts with an
error — before any subscription is created and before any message can be
emitted, since `consumeStartup` only produces its subscription list on
success — exactly when binding specs are present, or the minimum exceeds
the configured maximum, or the summed `messageCount` over the checked
queues is below the minimum; with `min = 0` or all three checks passing,
startup proceeds to the subscription list. -/
theorem consume_min_gate (min : Nat) (max : MaxOpt) (specs : Specs)
    (info : List QueueInfo) (dynQueue : String) :
    ((∃ e, consumeStartup min max specs info dynQueue = .error e) ↔
      (0 < min ∧ (specs.bindings ≠ [] ∨ minGtMax min max = true ∨
        (info.map QueueInfo.messageCount).sum < min))) ∧
    ((min = 0 ∨ (specs.bindings = [] ∧ minGtMax min max = false ∧
        min ≤ (info.map QueueInfo.messageCount).sum)) →
      consumeStartup min max specs info dynQueue =
        .ok (if specs.bindings.isEmpty then specs.queues else specs.queues ++ [dynQueue])) := by
  have hspec : ∀ r : Except String Unit,
      checkMinimumMessages min max specs info = r →
      ((0 < min ∧ (specs.bindings ≠ [] ∨ minGtMax min max = true ∨
          (info.map QueueInfo.messageCount).sum < min)) ↔ ∃ e, r = .error e) := by
    intro r hr
    simp only [checkMinimumMessages] at hr
    repeat' split at hr
    all_goals subst hr
    all_goals simp_all [List.length_pos]
  constructor
  · rw [Iff.comm]
    have h := hspec (checkMinimumMessages min max specs info) rfl
    constructor
    · intro hcond
      obtain ⟨e, he⟩ := h.mp hcond
      exact ⟨e, by simp [consumeStartup, he, Bind.bind, Except.bind]⟩
    · rintro ⟨e, he⟩
      apply h.mpr
      rcases hck : checkMinimumMessages min max specs info with e' | u
      · exact ⟨e', rfl⟩
      · exfalso
        simp [consumeStartup, hck, Bind.bind, Except.bind, Pure.pure, Except.pure] at he
  · intro hok
    have h := hspec (checkMinimumMessages min max specs info) rfl
    rcases hck : checkMinimumMessages min max specs info with e' | u
    · exfalso
      have := h.mpr ⟨e', hck ▸ rfl⟩
      rcases hok with h0 | ⟨hb, hm, hs⟩
      · omega
      · rcases this.2 with hbad | hbad | hbad
        · exact hbad hb
        · rw [hm] at hbad; cases hbad
        · omega
    · simp [consumeStartup, hck, Bind.bind, Except.bind, Pure.pure, Except.pure]

theorem consume_min_gate_witness :
    (∃ e, consumeStartup 5 none ⟨["q"], []⟩ [⟨3⟩] "dyn" = .error e) ∧
    consumeStartup 0 none ⟨["q"], []⟩ [⟨3⟩] "dyn" =
      .ok (if (⟨["q"], []⟩ : Specs).bindings.isEmpty then ["q"] else ["q"] ++ ["dyn"]) :=
  ⟨(consume_min_gate 5 none ⟨["q"], []⟩ [⟨3⟩] "dyn").1.mpr (by decide),
   (consume_min_gate 0 none ⟨["q"], []⟩ [⟨3⟩] "dyn").2 (Or.inl rfl)⟩

/-- C8: on the publish side, the first interrupt pauses stdin and marks
input as ended (so the session can reach draining without further input,
which it enters at once exactly when no confirmation is outstanding),
without forcing an exit; a second interrupt forces the immediate non-zero
exit (`forcedQuit`) regardless of `waitingForConfirm`, without entering the
graceful drain. -/
theorem publish_interrupt_escalation (s : PubState) :
    (s.interruptsReceived = 0 →
      (handleInterrupt s).stdinPaused = true ∧
      (handleInterrupt s).waitingForData = false ∧
      (handleInterrupt s).forcedQuit = s.forcedQuit ∧
      (handleInterrupt s).draining = (s.draining || decide (s.waitingForConfirm = 0))) ∧
    (1 ≤ s.interruptsReceived →
      (handleInterrupt s).forcedQuit = true ∧
      (handleInterrupt s).draining = s.draining) := by
  constructor
  · intro h0
    simp only [handleInterrupt, startQuitting, checkForQuit, h0]
    repeat' split
    all_goals simp_all
  · intro h1
    have : ¬ s.interruptsReceived + 1 ≤ 1 := by omega
    simp only [handleInterrupt, startQuitting, checkForQuit]
    repeat' split
    all_goals simp_all

theorem publish_interrupt_escalation_witness :
    ((handleInterrupt initPub).stdinPaused = true ∧
      (handleInterrupt initPub).waitingForData = false ∧
      (handleInterrupt initPub).forcedQuit = initPub.forcedQuit ∧
      (handleInterrupt initPub).draining =
        (initPub.draining || decide (initPub.waitingForConfirm = 0))) ∧
    (let s2 : PubState :=
      { waitingForConfirm := 2, waitingForData := false, interruptsReceived := 1,
        draining := false, forcedQuit := false, stdinPaused := true }
     (handleInterrupt s2).forcedQuit = true ∧ (handleInterrupt s2).draining = s2.draining) :=
  ⟨(publish_interrupt_escalation initPub).1 rfl,
   (publish_interrupt_escalation _).2 (by decide)⟩

/-- C9: (modelled from the spec, see `effectiveCorrelationId`) a value
carrying its own `correlationId` is published with it; otherwise the
configured default correlation value is applied exactly when it is
non-empty. -/
theorem publish_correlation_selection (v : Option String) (cfg : String) :
    (∀ c, v = some c → effectiveCorrelationId v cfg = some c) ∧
    (v = none → cfg ≠ "" → effectiveCorrelationId v cfg = some cfg) ∧
    (v = none → cfg = "" → effectiveCorrelationId v cfg = none) := by
  refine ⟨?_, ?_, ?_⟩
  · rintro c rfl; rfl
  · rintro rfl h; simp [effectiveCorrelationId, h]
  · rintro rfl rfl; rfl

theorem publish_correlation_selection_witness :
    effectiveCorrelationId (some "id-1") "dflt" = some "id-1" ∧
    effectiveCorrelationId none "dflt" = some "dflt" ∧
    effectiveCorrelationId none "" = none :=
  ⟨(publish_correlation_selection (some "id-1") "dflt").1 "id-1" rfl,
   (publish_correlation_selection none "dflt").2.1 rfl (by decide),
   (publish_correlation_selection none "").2.2 rfl rfl⟩

/-! ## Specification parser lemmas (C10) -/

theorem splitSlash_ne_nil (cs : List Char) : splitSlash cs ≠ [] := by
  cases cs with
  | nil => simp [splitSlash]
  | cons c rest =>
    simp only [splitSlash]
    split <;> simp

theorem empty_mem_splitSlash_of_head (cs : List Char) (h : cs.head? = some '/') :
    [] ∈ splitSlash cs := by
  rcases cs with _ | ⟨c, rest⟩
  · cases h
  · simp only [List.head?_cons, Option.some_inj] at h
    simp [splitSlash, h]

theorem splitSlash_append_slash (xs : List Char) :
    splitSlash (xs ++ ['/']) = splitSlash xs ++ [[]] := by
  induction xs with
  | nil => rfl
  | cons c rest ih =>
    by_cases hc : c = '/'
    · simp [splitSlash, hc, ih]
    · rcases List.exists_cons_of_ne_nil (splitSlash_ne_nil rest) with ⟨p, ps, hps⟩
      simp [splitSlash, hc, ih, hps, List.headI]

theorem empty_mem_splitSlash_of_last (cs : List Char) (h : cs.getLast? = some '/') :
    [] ∈ splitSlash cs := by
  rcases List.getLast?_eq_some_iff.mp h with ⟨ys, rfl⟩
  rw [splitSlash_append_slash]
  simp

theorem empty_mem_tail_splitSlash_of_doubleSlash (cs : List Char)
    (h : hasDoubleSlash cs = true) : [] ∈ (splitSlash cs).tail := by
  induction cs with
  | nil => cases h
  | cons c rest ih =>
    rcases rest with _ | ⟨c2, rest'⟩
    · cases h
    · simp only [hasDoubleSlash, Bool.or_eq_true, Bool.and_eq_true, decide_eq_true_eq] at h
      rcases h with ⟨rfl, rfl⟩ | h2
      · simp [splitSlash]
      · have ihm := ih h2
        by_cases hc : c = '/'
        · rw [show splitSlash (c :: c2 :: rest') =
              [] :: splitSlash (c2 :: rest') by simp [splitSlash, hc]]
          exact List.mem_of_mem_tail ihm
        · rw [show splitSlash (c :: c2 :: rest') =
              (c :: (splitSlash (c2 :: rest')).headI) :: (splitSlash (c2 :: rest')).tail
              by simp [splitSlash, hc]]
          exact ihm

theorem isBindingToken_eq_false_of_empty_part (t : String)
    (h : [] ∈ splitSlash t.data) : isBindingToken t = false := by
  have hall : (splitSlash t.data).all (fun p => !p.isEmpty) = false := by
    rw [List.all_eq_false]
    exact ⟨[], h, by simp⟩
  simp [isBindingToken, hall]

theorem parseSpecifications_characterization (specs : List String) :
    (parseSpecifications specs).queues = specs.filter (fun t => !isBindingToken t) ∧
    (parseSpecifications specs).bindings =
      specs.flatMap (fun t => if isBindingToken t then tokenBindings t else []) := by
  induction specs with
  | nil => exact ⟨rfl, rfl⟩
  | cons t rest ih =>
    simp only [parseSpecifications, List.filter_cons, List.flatMap_cons]
    by_cases hb : isBindingToken t <;> simp [hb, ih.1, ih.2]

/-- C10: a specification token containing `'/'` but with an empty segment
(leading `'/'`, trailing `'/'`, or a `"//"` anywhere) does not match
`RX.Binding` and is classified — never rejected — as a queue name; in
general the parser is total and sends every token either to the queue list
(exactly the non-matching tokens, in order) or to the binding list (each
matching token contributing its per-route bindings), never to both. -/
theorem parseSpecs_empty_segment_is_queue (t : String) (specs : List String) :
    ('/' ∈ t.data →
      (t.data.head? = some '/' ∨ t.data.getLast? = some '/' ∨ hasDoubleSlash t.data = true) →
      isBindingToken t = false ∧
      parseSpecifications [t] = { queues := [t], bindings := [] }) ∧
    ((parseSpecifications specs).queues = specs.filter (fun u => !isBindingToken u) ∧
     (parseSpecifications specs).bindings =
       specs.flatMap (fun u => if isBindingToken u then tokenBindings u else [])) := by
  refine ⟨?_, parseSpecifications_characterization specs⟩
  intro _ hbad
  have hmem : [] ∈ splitSlash t.data := by
    rcases hbad with h | h | h
    · exact empty_mem_splitSlash_of_head _ h
    · exact empty_mem_splitSlash_of_last _ h
    · exact List.mem_of_mem_tail (empty_mem_tail_splitSlash_of_doubleSlash _ h)
  have hfalse := isBindingToken_eq_false_of_empty_part t hmem
  exact ⟨hfalse, by simp [parseSpecifications, hfalse]⟩

theorem parseSpecs_empty_segment_is_queue_witness :
    isBindingToken "a//b" = false ∧
    parseSpecifications ["a//b"] = { queues := ["a//b"], bindings := [] } ∧
    parseSpecifications ["/a"] = { queues := ["/a"], bindings := [] } ∧
    parseSpecifications ["a/"] = { queues := ["a/"], bindings := [] } :=
  ⟨((parseSpecs_empty_segment_is_queue "a//b" []).1 (by decide)
      (Or.inr (Or.inr (by decide)))).1,
   ((parseSpecs_empty_segment_is_queue "a//b" []).1 (by decide)
      (Or.inr (Or.inr (by decide)))).2,
   ((parseSpecs_empty_segment_is_queue "/a" []).1 (by decide)
      (Or.inl (by decide))).2,
   ((parseSpecs_empty_segment_is_queue "a/" []).1 (by decide)
      (Or.inr (Or.inl (by decide)))).2⟩

/-- C6 counterexample: on the input chunk `" ["` the first non-blank
character is `'['`, so the claim (mode decided by the first non-blank
character, leading blanks not deciding) selects batch mode, but the code
fixes the mode from the very first character `' '` and fails with the usage
error. -/
theorem setReadMode_blank_counterexample :
    specReadMode (' ' :: ['[']) = .ok .batch ∧
    setReadMode (' ' :: ['[']) = .error "Incorrect usage, try using --help" ∧
    setReadMode (' ' :: ['[']) ≠ .ok .batch := by
  refine ⟨by decide, by decide, by decide⟩

/-- C6 (amended): the ingestion mode is determined by the very first
character of the first data chunk — blanks included: `'['` selects batch
mode, `'{'` selects stream mode, and any other first character (also a
leading blank, or an empty first chunk) is the fatal usage error. -/
theorem setReadMode_first_char (chunk : List Char) :
    (setReadMode chunk = .ok .batch ↔ chunk.head? = some '[') ∧
    (setReadMode chunk = .ok .stream ↔ chunk.head? = some '{') ∧
    ((∃ e, setReadMode chunk = .error e) ↔
      (chunk.head? ≠ some '[' ∧ chunk.head? ≠ some '{')) := by
  simp only [setReadMode]
  repeat' split
  all_goals simp_all

/-- The claim's trigger condition: `contentType` matches `application/json`
case-insensitively (exact subtype). Spec-side definition, used by the
counterexample to C4. -/
def matchesAppJsonCI (ct : Option String) : Bool :=
  match ct with
  | some t => t.data.map Char.toLower = "application/json".data
  | none => false

/-- C4 counterexample: the message with `contentType = "Application/Json"`
and body `"1"` matches the claim's case-insensitive trigger and its text
parses as JSON, yet `createJSON` (whose regex `/^application\/json$/` has no
`i` flag) does not parse it and keeps the raw string. -/
theorem createJSON_case_sensitivity_counterexample :
    matchesAppJsonCI (some "Application/Json") = true ∧
    jsonParse (convertContent [49] ⟨some "Application/Json", some "utf8"⟩).1 =
      some (.num 1) ∧
    (createJSON "d" "q" ⟨[49], ⟨some "Application/Json", some "utf8"⟩⟩).content =
      .str "1" ∧
    JSON.str "1" ≠ JSON.num 1 :=
  ⟨by decide, rfl, rfl, fun h => JSON.noConfusion h⟩

/-- C4 (amended): for every message whose declared `contentType` is exactly
`application/json` (the regex `/^application\/json$/` is case-sensitive),
the converted text is parsed as JSON and the parsed value becomes the
emitted content; when the parse fails the raw converted text is kept and no
error propagates (the match below is total). -/
theorem createJSON_json_content (d q : String) (msg : Msg)
    (h : msg.properties.contentType = some "application/json") :
    (createJSON d q msg).content =
      (match jsonParse (convertContent msg.content msg.properties).1 with
       | some v => v
       | none => .str (convertContent msg.content msg.properties).1) := by
  simp only [createJSON, h, if_pos]

theorem createJSON_json_content_witness :
    ((createJSON "d" "q" ⟨[49], ⟨some "application/json", some "utf8"⟩⟩).content =
      (match jsonParse (convertContent [49] ⟨some "application/json", some "utf8"⟩).1 with
       | some v => v
       | none => .str (convertContent [49] ⟨some "application/json", some "utf8"⟩).1)) ∧
    ((createJSON "d" "q" ⟨[123], ⟨some "application/json", some "utf8"⟩⟩).content =
      (match jsonParse (convertContent [123] ⟨some "application/json", some "utf8"⟩).1 with
       | some v => v
       | none => .str (convertContent [123] ⟨some "application/json", some "utf8"⟩).1)) ∧
    (createJSON "d" "q" ⟨[49], ⟨some "application/json", some "utf8"⟩⟩).content = .num 1 ∧
    (createJSON "d" "q" ⟨[123], ⟨some "application/json", some "utf8"⟩⟩).content = .str "\x7b" :=
  ⟨createJSON_json_content "d" "q" _ rfl, createJSON_json_content "d" "q" _ rfl, rfl, rfl⟩

/-! ## Publish drain lemmas (C2) -/

/-- Draining-only-when-idle invariant of the publish session. -/
def PubInv (s : PubState) : Prop :=
  s.draining = true → (s.waitingForConfirm = 0 ∧ s.waitingForData = false)

theorem checkForQuit_waitingForConfirm (s : PubState) :
    (checkForQuit s).waitingForConfirm = s.waitingForConfirm := by
  unfold checkForQuit
  repeat' split
  all_goals rfl

theorem checkForQuit_waitingForData (s : PubState) :
    (checkForQuit s).waitingForData = s.waitingForData := by
  unfold checkForQuit
  repeat' split
  all_goals rfl

theorem checkForQuit_inv (s : PubState) (h : PubInv s) : PubInv (checkForQuit s) := by
  unfold checkForQuit PubInv at *
  repeat' split
  all_goals simp_all

theorem pubStep_inv (s : PubState) (e : PubEvent)
    (h1 : e = .publishValue → s.waitingForData = true)
    (h2 : e = .confirmValue → s.waitingForConfirm ≠ 0)
    (h : PubInv s) : PubInv (pubStep s e) := by
  cases e with
  | publishValue =>
    intro hd
    simp only [pubStep] at hd ⊢
    have := h hd
    have := h1 rfl
    simp_all
  | confirmValue =>
    apply checkForQuit_inv
    intro hd
    simp only at hd
    rcases h hd with ⟨hc, hw⟩
    exact absurd hc (h2 rfl)
  | inputEnd =>
    apply checkForQuit_inv
    intro hd
    simp only at hd
    exact ⟨(h hd).1, rfl⟩
  | interrupt =>
    apply checkForQuit_inv
    intro hd
    simp only at hd
    exact ⟨(h hd).1, rfl⟩

theorem validFrom_head_publish (s : PubState) (es : List PubEvent)
    (hv : validFrom s (.publishValue :: es) = true) : s.waitingForData = true := by
  simp only [validFrom, Bool.and_eq_true, Bool.or_eq_true, Bool.not_eq_true'] at hv
  simpa using hv.1.1

theorem validFrom_head_confirm (s : PubState) (es : List PubEvent)
    (hv : validFrom s (.confirmValue :: es) = true) : s.waitingForConfirm ≠ 0 := by
  simp only [validFrom, Bool.and_eq_true, Bool.or_eq_true, Bool.not_eq_true'] at hv
  simpa using hv.1.2

theorem validFrom_tail (s : PubState) (e : PubEvent) (es : List PubEvent)
    (hv : validFrom s (e :: es) = true) : validFrom (pubStep s e) es = true := by
  simp only [validFrom, Bool.and_eq_true] at hv
  exact hv.2

theorem pubRun_inv (evs : List PubEvent) : ∀ s, validFrom s evs = true →
    PubInv s → PubInv (pubRun s evs) := by
  induction evs with
  | nil => intro s _ h; exact h
  | cons e es ih =>
    intro s hv h
    refine ih _ (validFrom_tail s e es hv) (pubStep_inv s e ?_ ?_ h)
    · rintro rfl; exact validFrom_head_publish s es hv
    · rintro rfl; exact validFrom_head_confirm s es hv

theorem validFrom_take (evs : List PubEvent) : ∀ s k, validFrom s evs = true →
    validFrom s (evs.take k) = true := by
  induction evs with
  | nil => intro s k _; simp [List.take_nil, validFrom]
  | cons e es ih =>
    intro s k hv
    cases k with
    | zero => rfl
    | succ k =>
      simp only [List.take_succ_cons, validFrom, Bool.and_eq_true] at *
      exact ⟨hv.1, ih _ k hv.2⟩

theorem pubRun_confirm_count (evs : List PubEvent) : ∀ s, validFrom s evs = true →
    (pubRun s evs).waitingForConfirm + evs.count .confirmValue =
      s.waitingForConfirm + evs.count .publishValue := by
  induction evs with
  | nil => intro s _; simp [pubRun]
  | cons e es ih =>
    intro s hv
    have hrec := ih (pubStep s e) (validFrom_tail s e es hv)
    cases e with
    | publishValue =>
      simp only [pubRun, List.count_cons, pubStep] at hrec ⊢
      rw [show (if (PubEvent.publishValue == PubEvent.confirmValue) = true then 1 else 0) = 0
            from by decide,
          show (if (PubEvent.publishValue == PubEvent.publishValue) = true then 1 else 0) = 1
            from by decide]
      omega
    | confirmValue =>
      have hne := validFrom_head_confirm s es hv
      simp only [pubRun, List.count_cons, pubStep, checkForQuit_waitingForConfirm] at hrec ⊢
      rw [show (if (PubEvent.confirmValue == PubEvent.confirmValue) = true then 1 else 0) = 1
            from by decide,
          show (if (PubEvent.confirmValue == PubEvent.publishValue) = true then 1 else 0) = 0
            from by decide]
      omega
    | inputEnd =>
      simp only [pubRun, List.count_cons, pubStep, startQuitting,
        checkForQuit_waitingForConfirm] at hrec ⊢
      rw [show (if (PubEvent.inputEnd == PubEvent.confirmValue) = true then 1 else 0) = 0
            from by decide,
          show (if (PubEvent.inputEnd == PubEvent.publishValue) = true then 1 else 0) = 0
            from by decide]
      omega
    | interrupt =>
      simp only [pubRun, List.count_cons, pubStep, handleInterrupt, startQuitting,
        checkForQuit_waitingForConfirm] at hrec ⊢
      rw [show (if (PubEvent.interrupt == PubEvent.confirmValue) = true then 1 else 0) = 0
            from by decide,
          show (if (PubEvent.interrupt == PubEvent.publishValue) = true then 1 else 0) = 0
            from by decide]
      omega

/-- C2: `checkForQuit` starts draining exactly when input has ended and no
confirmation is outstanding (given at most one interrupt and not already
draining, neither condition alone suffices); along every valid event trace
— `waitingForConfirm` incremented once per published value before dispatch
and decremented only after all of that value's confirmations resolve — the
session, at every prefix, is draining only with zero outstanding
confirmations and ended input, and the outstanding count always equals
publishes minus full confirmations. -/
theorem publish_drain_requires_both (s : PubState) (evs : List PubEvent)
    (hint : s.interruptsReceived ≤ 1) (hnd : s.draining = false)
    (hv : validFrom initPub evs = true) :
    ((checkForQuit s).draining = true ↔
      (s.waitingForData = false ∧ s.waitingForConfirm = 0)) ∧
    (∀ k, (pubRun initPub (evs.take k)).draining = true →
      (pubRun initPub (evs.take k)).waitingForConfirm = 0 ∧
      (pubRun initPub (evs.take k)).waitingForData = false) ∧
    ((pubRun initPub evs).waitingForConfirm + evs.count .confirmValue =
      evs.count .publishValue) := by
  refine ⟨?_, ?_, ?_⟩
  · unfold checkForQuit
    have : ¬ s.interruptsReceived > 1 := by omega
    repeat' split
    all_goals simp_all
  · intro k
    exact pubRun_inv (evs.take k) initPub (validFrom_take evs initPub k hv)
      (fun h => absurd h (by decide))
  · have := pubRun_confirm_count evs initPub hv
    simpa [initPub] using this

theorem publish_drain_requires_both_witness :
    ((checkForQuit
        { waitingForConfirm := 1, waitingForData := false, interruptsReceived := 0,
          draining := false, forcedQuit := false, stdinPaused := false }).draining = true ↔
      (({ waitingForConfirm := 1, waitingForData := false, interruptsReceived := 0,
          draining := false, forcedQuit := false, stdinPaused := false } : PubState).waitingForData
          = false ∧
       ({ waitingForConfirm := 1, waitingForData := false, interruptsReceived := 0,
          draining := false, forcedQuit := false, stdinPaused := false } : PubState).waitingForConfirm
          = 0)) ∧
    (∀ k, (pubRun initPub
        ([.publishValue, .publishValue, .inputEnd, .confirmValue, .confirmValue].take k)).draining
          = true →
      (pubRun initPub
        ([.publishValue, .publishValue, .inputEnd, .confirmValue, .confirmValue].take k)).waitingForConfirm = 0 ∧
      (pubRun initPub
        ([.publishValue, .publishValue, .inputEnd, .confirmValue, .confirmValue].take k)).waitingForData = false) ∧
    (pubRun initPub
      [.publishValue, .publishValue, .inputEnd, .confirmValue]).draining = false ∧
    (pubRun initPub
      [.publishValue, .publishValue, .inputEnd, .confirmValue, .confirmValue]).draining = true := by
  have h := publish_drain_requires_both
    { waitingForConfirm := 1, waitingForData := false, interruptsReceived := 0,
      draining := false, forcedQuit := false, stdinPaused := false }
    [.publishValue, .publishValue, .inputEnd, .confirmValue, .confirmValue]
    (by decide) (by decide) (by decide)
  exact ⟨h.1, h.2.1, by decide, by decide⟩

/-! ## Stream decoder lemmas (C7) -/

theorem splitCRLF_nil (acc : List Char) : splitCRLF [] acc = ([], acc.reverse) := rfl

theorem splitCRLF_rn (rest acc : List Char) :
    splitCRLF ('\r' :: '\n' :: rest) acc =
      (acc.reverse :: (splitCRLF rest []).1, (splitCRLF rest []).2) := rfl

theorem splitCRLF_n (rest acc : List Char) :
    splitCRLF ('\n' :: rest) acc =
      (acc.reverse :: (splitCRLF rest []).1, (splitCRLF rest []).2) := rfl

theorem splitCRLF_r (rest acc : List Char) (h : rest.head? ≠ some '\n') :
    splitCRLF ('\r' :: rest) acc =
      (acc.reverse :: (splitCRLF rest []).1, (splitCRLF rest []).2) :=
  splitCRLF.eq_3 acc rest (fun rest1 hr => h (by rw [hr]; rfl))

theorem splitCRLF_other (c : Char) (rest acc : List Char)
    (h1 : c ≠ '\r') (h2 : c ≠ '\n') :
    splitCRLF (c :: rest) acc = splitCRLF rest (c :: acc) :=
  splitCRLF.eq_5 acc c rest (fun _ hc _ => h1 hc) h1 h2

theorem head_ne_newline (rest : List Char)
    (hne : ∀ rest1 : List Char, rest = '\n' :: rest1 → False) :
    rest.head? ≠ some '\n' := by
  rcases rest with _ | ⟨c2, r'⟩
  · simp
  · intro hh
    have hc : c2 = '\n' := by simpa using hh
    exact hne r' (by rw [hc])

/-- The carry-over fragment contains no line separator. -/
def noSep (l : List Char) : Prop := ∀ c ∈ l, c ≠ '\r' ∧ c ≠ '\n'

theorem noSep_nil : noSep [] := fun c hc => absurd hc (List.not_mem_nil c)

theorem splitCRLF_carry_noSep (cs acc : List Char) :
    noSep acc → noSep (splitCRLF cs acc).2 := by
  induction cs, acc using splitCRLF.induct with
  | case1 acc =>
    intro h c hc
    exact h c (List.mem_reverse.mp hc)
  | case2 rest acc ih =>
    intro _
    rw [splitCRLF_rn]
    exact ih noSep_nil
  | case3 rest acc hne ih =>
    intro _
    rw [splitCRLF_r rest acc (head_ne_newline rest hne)]
    exact ih noSep_nil
  | case4 rest acc ih =>
    intro _
    rw [splitCRLF_n]
    exact ih noSep_nil
  | case5 c rest acc _ h1 h2 ih =>
    intro h
    rw [splitCRLF_other c rest acc (fun hc => h1 hc) (fun hc => h2 hc)]
    refine ih ?_
    intro x hx
    rcases List.mem_cons.mp hx with rfl | hx'
    · exact ⟨fun hc => h1 hc, fun hc => h2 hc⟩
    · exact h x hx'

theorem splitCRLF_noSep_prepend (p : List Char) : ∀ y acc, noSep p →
    splitCRLF (p ++ y) acc = splitCRLF y (p.reverse ++ acc) := by
  induction p with
  | nil => intro y acc _; simp
  | cons c p' ih =>
    intro y acc hns
    have hc := hns c (List.mem_cons_self c p')
    have hns' : noSep p' := fun x hx => hns x (List.mem_cons_of_mem c hx)
    rw [List.cons_append, splitCRLF_other c (p' ++ y) acc hc.1 hc.2, ih y (c :: acc) hns']
    simp

theorem cond_getLast_sub (c : Char) (rest : List Char) (p : Prop)
    (h : ¬((c :: rest).getLast? = some '\r' ∧ p)) :
    ¬(rest.getLast? = some '\r' ∧ p) := by
  rcases rest with _ | ⟨b, l⟩
  · simp
  · rwa [List.getLast?_cons_cons] at h

theorem splitCRLF_append (x : List Char) : ∀ (acc y : List Char),
    ¬(x.getLast? = some '\r' ∧ y.head? = some '\n') →
    splitCRLF (x ++ y) acc =
      ((splitCRLF x acc).1 ++ (splitCRLF y ((splitCRLF x acc).2.reverse)).1,
       (splitCRLF y ((splitCRLF x acc).2.reverse)).2) := by
  induction x, (([] : List Char)) using splitCRLF.induct with
  | case1 acc =>
    intro acc' y _
    simp [splitCRLF_nil]
  | case2 rest acc ih =>
    intro acc' y h
    have h' : ¬(rest.getLast? = some '\r' ∧ y.head? = some '\n') :=
      cond_getLast_sub _ _ _ (cond_getLast_sub _ _ _ h)
    rw [List.cons_append, List.cons_append, splitCRLF_rn, splitCRLF_rn,
      ih [] y h']
    simp
  | case3 rest acc hne ih =>
    intro acc' y h
    have hrest : rest.head? ≠ some '\n' := head_ne_newline rest hne
    rcases rest with _ | ⟨c2, r'⟩
    · -- x = ['\r']: the hypothesis forbids y starting with '\n'
      have hy : y.head? ≠ some '\n' := by
        intro hy
        exact h (by simp [hy])
      rw [List.cons_append, List.nil_append, splitCRLF_r y acc' hy,
        splitCRLF_r [] acc' (by simp)]
      simp [splitCRLF_nil]
    · have h' : ¬((c2 :: r').getLast? = some '\r' ∧ y.head? = some '\n') :=
        cond_getLast_sub _ _ _ h
      have hcons : ((c2 :: r') ++ y).head? ≠ some '\n' := by
        simpa using hrest
      rw [List.cons_append, splitCRLF_r ((c2 :: r') ++ y) acc' hcons,
        splitCRLF_r (c2 :: r') acc' hrest, ih [] y h']
      simp
  | case4 rest acc ih =>
    intro acc' y h
    have h' : ¬(rest.getLast? = some '\r' ∧ y.head? = some '\n') :=
      cond_getLast_sub _ _ _ h
    rw [List.cons_append, splitCRLF_n, splitCRLF_n, ih [] y h']
    simp
  | case5 c rest acc _ h1 h2 ih =>
    intro acc' y h
    have h' : ¬(rest.getLast? = some '\r' ∧ y.head? = some '\n') :=
      cond_getLast_sub _ _ _ h
    rw [List.cons_append, splitCRLF_other c (rest ++ y) acc' (fun hc => h1 hc) (fun hc => h2 hc),
      splitCRLF_other c rest acc' (fun hc => h1 hc) (fun hc => h2 hc)]
    exact ih (c :: acc') y h'

theorem readData_splitCRLF (T c : List Char)
    (h : ¬(T.getLast? = some '\r' ∧ c.head? = some '\n')) :
    readData (splitCRLF T []) c = splitCRLF (T ++ c) [] := by
  have hns : noSep (splitCRLF T []).2 := splitCRLF_carry_noSep T [] noSep_nil
  simp only [readData]
  rw [splitCRLF_noSep_prepend _ c [] hns, splitCRLF_append T [] c h]
  simp

theorem foldl_readData_eq (chunks : List (List Char)) : ∀ T,
    noSplitCRLF T chunks = true →
    List.foldl readData (splitCRLF T []) chunks = splitCRLF (T ++ chunks.flatten) [] := by
  induction chunks with
  | nil => intro T _; simp
  | cons c cs ih =>
    intro T h
    simp only [noSplitCRLF, Bool.and_eq_true, Bool.not_eq_true', Bool.and_eq_false_iff,
      beq_eq_false_iff_ne, ne_eq] at h
    have h1 : ¬(T.getLast? = some '\r' ∧ c.head? = some '\n') := by
      rcases h.1 with hl | hr
      · exact fun hh => hl hh.1
      · exact fun hh => hr hh.2
    simp only [List.foldl_cons, List.flatten_cons]
    rw [readData_splitCRLF T c h1, ih (T ++ c) h.2, List.append_assoc]

theorem noSplitCRLF_take (chunks : List (List Char)) : ∀ T k,
    noSplitCRLF T chunks = true → noSplitCRLF T (chunks.take k) = true := by
  induction chunks with
  | nil => intro T k _; simp [List.take_nil]; rfl
  | cons c cs ih =>
    intro T k h
    cases k with
    | zero => rfl
    | succ k =>
      simp only [List.take_succ_cons, noSplitCRLF, Bool.and_eq_true] at *
      exact ⟨h.1, ih _ k h.2⟩

/-- C7 (amended): in stream mode, for every division of the input text into
chunks in which no `\r\n` pair is split across a chunk boundary
(`noSplitCRLF`), the decoder hands to `publish` exactly the values of the
complete lines of the text received so far — in input order, each as soon as
its terminating line boundary (`\n`, `\r\n` or `\r`) has been received and
never before — and at end of input a non-empty carry-over remainder is
parsed as one final value, so the whole run equals feeding the undivided
text. -/
theorem stream_decoder_chunk_division (chunks : List (List Char))
    (h : noSplitCRLF [] chunks = true) :
    streamValues chunks = streamValues [chunks.flatten] ∧
    streamLines chunks = streamLines [chunks.flatten] ∧
    (∀ k, (runChunks (chunks.take k)).1 = (splitCRLF (chunks.take k).flatten []).1) := by
  have hone : ∀ x : List Char, runChunks [x] = splitCRLF x [] := by
    intro x
    simp [runChunks, readData, splitCRLF_nil]
  have hrun : runChunks chunks = splitCRLF chunks.flatten [] := by
    have := foldl_readData_eq chunks [] h
    simpa [runChunks, splitCRLF_nil] using this
  refine ⟨?_, ?_, ?_⟩
  · simp [streamValues, streamLines, hrun, hone]
  · simp [streamLines, hrun, hone]
  · intro k
    have hk := foldl_readData_eq (chunks.take k) [] (noSplitCRLF_take chunks [] k h)
    have hr : runChunks (chunks.take k) = splitCRLF (chunks.take k).flatten [] := by
      simpa [runChunks, splitCRLF_nil] using hk
    rw [hr]

theorem stream_decoder_chunk_division_witness :
    noSplitCRLF [] ["\x7b\"a\":1\x7d\n\x7b\"a\":".data, "2\x7d\n".data] = true ∧
    streamValues ["\x7b\"a\":1\x7d\n\x7b\"a\":".data, "2\x7d\n".data] =
      streamValues [(["\x7b\"a\":1\x7d\n\x7b\"a\":".data, "2\x7d\n".data] : List (List Char)).flatten] ∧
    streamValues ["\x7b\"a\":1\x7d\n\x7b\"a\":".data, "2\x7d\n".data] =
      some [.obj [("a", .num 1)], .obj [("a", .num 2)]] ∧
    (runChunks (["\x7b\"a\":1\x7d\n\x7b\"a\":".data, "2\x7d\n".data].take 1)).1 = ["\x7b\"a\":1\x7d".data] :=
  ⟨by decide,
   (stream_decoder_chunk_division _ (by decide)).1,
   by rfl,
   by decide⟩

/-- C7 counterexample: dividing the text `"1\r\n2\n"` between the `\r` and
the `\n` makes the decoder treat the lone `\r` as a boundary and then parse
the empty line produced by the following `\n`, which throws — so the claim
that every division of the same text yields the values of the text in order
is false: the divided run dies after yielding only the first value, while
the undivided run yields both. -/
theorem stream_decoder_crlf_split_counterexample :
    streamValues ["1\r".data, "\n2\n".data] = none ∧
    streamValues [(["1\r".data, "\n2\n".data] : List (List Char)).flatten] =
      some [.num 1, .num 2] ∧
    streamLines ["1\r".data, "\n2\n".data] ≠
      streamLines [(["1\r".data, "\n2\n".data] : List (List Char)).flatten] :=
  ⟨by rfl, by rfl, by decide⟩

end AmqpTools
